import Mathlib

/-!
Shallow embedding of the configuration and transformation core of the
`xsdgen` package (src/xsdgen/config.go): the reversible Option system,
the name-transform chain, the SOAP array resolver
(`parseSOAPArrayType` / `overrideWildcardType`) and the
struct-to-sequence flattener (`soapArrayToSlice`).

The `xsd` and `internal/gen` packages are external collaborators of the
shown source; their small interface surface (qualified names, the
structured-type record with base/attribute/element lists, schema type
lookup, prefix resolution, struct-tag extraction, method synthesis) is
modelled from the specification where noted.
-/

namespace Xsdgen

/-- A qualified XML name: (namespace, local-name) pair, mirroring
`encoding/xml.Name`. -/
structure XmlName where
  Space : String
  Local : String
deriving DecidableEq, Repr

/-- Modelled from the spec: an element record of the external schema
model, exposing the wildcard flag and the referenced type.  Within one
schema a type is identified by its qualified name, so the referenced
type (`xsd.Element.Type`) is represented by its name. -/
structure XsdElement where
  Name : XmlName
  Wildcard : Bool
  TypeName : XmlName
deriving DecidableEq, Repr

/-- Modelled from the spec: an attribute record of the external schema
model.  `Attr` holds the raw XML sub-attributes; `Scope` holds the
in-scope namespace bindings used by `Resolve`; `Fixed` is the
fixed-value override. -/
structure XsdAttribute where
  Name : XmlName
  Attr : List (XmlName × String)
  Scope : List (String × String)
  Fixed : String
deriving DecidableEq, Repr

/-- Modelled from the spec: the schema type graph.  A structured
(complex) type carries a base-type reference, an ordered attribute list
and an ordered element list; other shapes (simple, builtin) carry at
most a base reference.  Embedding the base as a subterm makes base
chains finite by construction. -/
inductive XsdType where
  | complex (name : XmlName) (base : Option XsdType)
      (attributes : List XsdAttribute) (elements : List XsdElement)
  | simple (name : XmlName) (base : Option XsdType)
  | builtin (name : XmlName)

/-- `xsd.XMLName`: the qualified name of a type. -/
def XsdType.XMLName : XsdType → XmlName
  | .complex n _ _ _ => n
  | .simple n _ => n
  | .builtin n => n

/-- `xsd.Base`: the base type, or none for types without one. -/
def XsdType.BaseOf : XsdType → Option XsdType
  | .complex _ b _ _ => b
  | .simple _ b => b
  | .builtin _ => none

/-- The Go dynamic type string of a type value (the `%T` format verb). -/
def XsdType.goTypeString : XsdType → String
  | .complex _ _ _ _ => "*xsd.ComplexType"
  | .simple _ _ => "*xsd.SimpleType"
  | .builtin _ => "xsd.Builtin"

/-- The record view of a `*xsd.ComplexType` value. -/
structure CT where
  Name : XmlName
  Base : Option XsdType
  Attributes : List XsdAttribute
  Elements : List XsdElement

def CT.toType (c : CT) : XsdType :=
  .complex c.Name c.Base c.Attributes c.Elements

/-- The `t.(*xsd.ComplexType)` type assertion. -/
def XsdType.asComplex : XsdType → Option CT
  | .complex n b a e => some ⟨n, b, a, e⟩
  | _ => none

/-- Modelled from the spec: the owning schema's type table, with
`FindType` the type-lookup-by-qualified-name operation scoped to one
schema document. -/
def Schema := List (XmlName × XsdType)

def Schema.FindType (s : Schema) (n : XmlName) : Option XsdType :=
  (List.find? (fun p => p.1 = n) s).map (fun p => p.2)

/-- Splitting a character list at every separator character, keeping
empty segments (the semantics of `strings.Split` for a one-character
separator). -/
def splitByAux (p : Char → Bool) : List Char → List Char → List String
  | [], acc => [String.mk acc.reverse]
  | c :: rest, acc =>
      if p c then String.mk acc.reverse :: splitByAux p rest []
      else splitByAux p rest (c :: acc)

def splitBy (p : Char → Bool) (s : String) : List String :=
  splitByAux p s.toList []

def splitOnChar (sep : Char) (s : String) : List String :=
  splitBy (fun c => c == sep) s

def joinWith (sep : String) : List String → String
  | [] => ""
  | [x] => x
  | x :: rest => x ++ sep ++ joinWith sep rest

/-- `strings.TrimSpace` (ASCII whitespace): drop whitespace from both
ends. -/
def trimSpace (s : String) : String :=
  String.mk
    (((s.toList.dropWhile Char.isWhitespace).reverse.dropWhile
        Char.isWhitespace).reverse)

/-- `strings.TrimSuffix s suf`: drop `suf` from the end of `s`, once,
when present. -/
def trimSuffixOnce (s suf : String) : String :=
  if suf.toList.isSuffixOf s.toList then
    String.mk (s.toList.take (s.toList.length - suf.toList.length))
  else s

/-- Modelled from the spec: `xsd.Attribute.Resolve` resolves a
namespace-qualified reference of the form `prefix:localname` against the
attribute's in-scope namespace bindings; an unprefixed reference keeps
an empty namespace. -/
def XsdAttribute.Resolve (a : XsdAttribute) (v : String) : XmlName :=
  match splitOnChar ':' v with
  | [] => ⟨"", v⟩
  | [x] => ⟨"", x⟩
  | p :: rest =>
      ⟨((a.Scope.find? (fun q => q.1 = p)).map (fun q => q.2)).getD "",
       joinWith ":" rest⟩

/-!
The Config and its reversible Option system.  In Go the configurable
slots hold closures built by the exported Options; here each slot holds
the syntactic chain the source constructs, so that two Configs can be
compared field by field and so that the chains can be evaluated.
-/

/-- The `allNameTransform` chain.  `ReplaceAllNames` always wraps the
previous chain (possibly absent) with one more substitution rule. -/
inductive NameTransform where
  | replaceAll (prev : Option NameTransform) (pat repl : String)

/-- A `preprocessType` chain: `ProcessTypes` wraps the previous chain
with a user function (represented by an opaque code), and
`HandleSOAPArrayType` wraps it with the SOAP array resolver. -/
inductive TypeTransform where
  | process (prev : Option TypeTransform) (fn : Nat)
  | handleSOAP (prev : Option TypeTransform)

/-- A `postprocessType` chain: `SOAPArrayAsSlice` wraps the previous
chain with the struct-to-sequence flattener. -/
inductive SpecTransform where
  | soapSlice (prev : Option SpecTransform)

/-- A property filter.  Installing a filter replaces, rather than
wraps, the previous one. -/
inductive PropertyFilter where
  | ignoreAttributes (names : List String)
  | ignoreElements (names : List String)
  | onlyTypes (patterns : List String)
deriving DecidableEq, Repr

/-- The `Config` record of src/xsdgen/config.go.  The logger is an
opaque sink identifier (`none` = no logger installed). -/
structure Config where
  logger : Option Nat := none
  loglevel : Int := 0
  pkgname : String := ""
  preprocessType : Option TypeTransform := none
  postprocessType : Option SpecTransform := none
  filterAttributes : Option PropertyFilter := none
  filterElements : Option PropertyFilter := none
  filterTypes : Option PropertyFilter := none
  typeNameTransform : Option NameTransform := none
  elemNameTransform : Option NameTransform := none
  attrNameTransform : Option NameTransform := none
  allNameTransform : Option NameTransform := none

/-- `cfg.logf`: the messages delivered to the sink by one `logf` call
(delivered only when a logger is installed and `loglevel > 0`). -/
def Config.logf (cfg : Config) (msg : String) : List String :=
  if cfg.logger.isSome ∧ 0 < cfg.loglevel then [msg] else []

/-- `cfg.debugf`: the messages delivered to the sink by one `debugf`
call (delivered only when a logger is installed and `loglevel > 3`). -/
def Config.debugf (cfg : Config) (msg : String) : List String :=
  if cfg.logger.isSome ∧ 3 < cfg.loglevel then [msg] else []

/-- `cfg.errorf`: the messages delivered to the sink by one `errorf`
call (delivered whenever a logger is installed). -/
def Config.errorf (cfg : Config) (msg : String) : List String :=
  if cfg.logger.isSome then [msg] else []

/-- The exported Options of the package, plus the internal
`replace*`-shaped Options that the exported ones return as inverses
(each sets one slot back to a captured previous value). -/
inductive Opt where
  | errorLog (l : Option Nat) (level : Int)
  | packageName (s : String)
  | ignoreAttributes (names : List String)
  | ignoreElements (names : List String)
  | onlyTypes (patterns : List String)
  | replaceAllNames (pat repl : String)
  | processTypes (fn : Nat)
  | handleSOAPArrayType
  | soapArrayAsSlice
  | setFilterAttributes (f : Option PropertyFilter)
  | setFilterElements (f : Option PropertyFilter)
  | setFilterTypes (f : Option PropertyFilter)
  | setAllNameTransform (f : Option NameTransform)
  | setPreprocessType (f : Option TypeTransform)
  | setPostprocessType (f : Option SpecTransform)

/-- Applying one Option to a Config: performs the mutation and returns
the inverse Option that captures the prior value of the touched
slot(s), exactly as each exported Option of the source does. -/
def applyOpt : Opt → Config → Config × Opt
  | .errorLog l level, cfg =>
      ({ cfg with logger := l, loglevel := level },
       .errorLog cfg.logger cfg.loglevel)
  | .packageName s, cfg =>
      ({ cfg with pkgname := s }, .packageName cfg.pkgname)
  | .ignoreAttributes names, cfg =>
      ({ cfg with filterAttributes := some (.ignoreAttributes names) },
       .setFilterAttributes cfg.filterAttributes)
  | .ignoreElements names, cfg =>
      ({ cfg with filterElements := some (.ignoreElements names) },
       .setFilterElements cfg.filterElements)
  | .onlyTypes patterns, cfg =>
      ({ cfg with filterTypes := some (.onlyTypes patterns) },
       .setFilterTypes cfg.filterTypes)
  | .replaceAllNames pat repl, cfg =>
      let nt : NameTransform := .replaceAll cfg.allNameTransform pat repl
      ({ cfg with allNameTransform := some nt },
       .setAllNameTransform cfg.allNameTransform)
  | .processTypes fn, cfg =>
      let tt : TypeTransform := .process cfg.preprocessType fn
      ({ cfg with preprocessType := some tt },
       .setPreprocessType cfg.preprocessType)
  | .handleSOAPArrayType, cfg =>
      let tt : TypeTransform := .handleSOAP cfg.preprocessType
      ({ cfg with preprocessType := some tt },
       .setPreprocessType cfg.preprocessType)
  | .soapArrayAsSlice, cfg =>
      let st : SpecTransform := .soapSlice cfg.postprocessType
      ({ cfg with postprocessType := some st },
       .setPostprocessType cfg.postprocessType)
  | .setFilterAttributes f, cfg =>
      ({ cfg with filterAttributes := f },
       .setFilterAttributes cfg.filterAttributes)
  | .setFilterElements f, cfg =>
      ({ cfg with filterElements := f },
       .setFilterElements cfg.filterElements)
  | .setFilterTypes f, cfg =>
      ({ cfg with filterTypes := f },
       .setFilterTypes cfg.filterTypes)
  | .setAllNameTransform f, cfg =>
      ({ cfg with allNameTransform := f },
       .setAllNameTransform cfg.allNameTransform)
  | .setPreprocessType f, cfg =>
      ({ cfg with preprocessType := f },
       .setPreprocessType cfg.preprocessType)
  | .setPostprocessType f, cfg =>
      ({ cfg with postprocessType := f },
       .setPostprocessType cfg.postprocessType)

/-- The final Config after applying a sequence of Options in order. -/
def applyOpts (cfg : Config) (opts : List Opt) : Config :=
  opts.foldl (fun c o => (applyOpt o c).1) cfg

/-- The `Config.Option` method: applies every Option in order and
returns the inverse produced by the last application (`none` when the
sequence is empty, mirroring the nil zero value). -/
def Config.applyOption (cfg : Config) (opts : List Opt) :
    Config × Option Opt :=
  opts.foldl
    (fun acc o =>
      let r := applyOpt o acc.1
      (r.1, some r.2))
    (cfg, none)

/-- `DefaultOptions`, for reference. -/
def DefaultOptions : List Opt :=
  [ .ignoreAttributes ["id", "href", "ref", "offset"],
    .replaceAllNames "[._ \\s-]" "",
    .packageName "ws",
    .handleSOAPArrayType,
    .soapArrayAsSlice ]

/-- An interpretation of the external regular-expression engine
(Go's `regexp` standard library): `ok pat` tells whether `pat`
compiles, and `replace pat repl s` is `ReplaceAllString`. -/
structure RegexEngine where
  ok : String → Bool
  replace : String → String → String → String

/-- Evaluating an `allNameTransform` chain on a qualified name, as the
closures built by `ReplaceAllNames` do: the previous chain (or the bare
local name) is computed first, then the rule's substitution is applied
to its result when the rule's pattern compiles. -/
def evalNT (eng : RegexEngine) : NameTransform → XmlName → String
  | .replaceAll prev pat repl, n =>
      let s := match prev with
        | none => n.Local
        | some p => evalNT eng p n
      if eng.ok pat then eng.replace pat repl s else s

/-- Evaluating a possibly-absent chain: with no chain installed the
local name is used as is. -/
def evalNTOpt (eng : RegexEngine) (t : Option NameTransform)
    (n : XmlName) : String :=
  match t with
  | none => n.Local
  | some p => evalNT eng p n

/-!
The SOAP array resolver: `parseSOAPArrayType` and its helper
`overrideWildcardType`.
-/

def soapencNS : String := "http://schemas.xmlsoap.org/soap/encoding/"

def wsdlNS : String := "http://schemas.xmlsoap.org/wsdl/"

/-- The inner loop of the attribute scan: the first sub-attribute named
`{wsdl}arrayType`, if any (later sub-attributes are skipped by the
`break`). -/
def findWsdlArrayType : List (XmlName × String) → Option String
  | [] => none
  | (n, v) :: rest =>
      if n = ⟨wsdlNS, "arrayType"⟩ then some v else findWsdlArrayType rest

/-- The outer attribute scan of `parseSOAPArrayType`: stops at the
first attribute whose local name is `arrayType` (the unconditional
`break`), records its wsdl sub-attribute's literal value as the
attribute's fixed value and resolves it, when present. -/
def arrayTypeScan : List XsdAttribute → List XsdAttribute × Option XmlName
  | [] => ([], none)
  | a :: rest =>
      if a.Name.Local = "arrayType" then
        match findWsdlArrayType a.Attr with
        | some v => ({ a with Fixed := v } :: rest, some (a.Resolve v))
        | none => (a :: rest, none)
      else
        let r := arrayTypeScan rest
        (a :: r.1, r.2)

/-- The outcome of the base-chain walk in `overrideWildcardType`. -/
inductive WalkResult where
  | abort (x : XsdType)
  | found (e : XsdElement)
  | notFound

/-- The base-chain walk of `overrideWildcardType`
(`for x := xsd.Type(t); xsd.Base(x) != nil; x = xsd.Base(x)`): a type
is examined only while it still has a base; a visited non-complex type
aborts the walk; the first wildcard element of the first visited
complex type that has one is the template. -/
def wildcardWalk : XsdType → WalkResult
  | .builtin _ => .notFound
  | .simple _ none => .notFound
  | .simple n (some b) => .abort (.simple n (some b))
  | .complex _ none _ _ => .notFound
  | .complex _ (some b) _ elems =>
      match elems.find? (fun v => v.Wildcard) with
      | some e => .found e
      | none => wildcardWalk b

/-- The list of types the walk examines: the type itself and its
ancestors, each included only while it still has a base link to
ascend. -/
def visitedChain : XsdType → List XsdType
  | .builtin _ => []
  | .simple _ none => []
  | .complex _ none _ _ => []
  | .simple n (some b) => .simple n (some b) :: visitedChain b
  | .complex n (some b) attrs elems =>
      .complex n (some b) attrs elems :: visitedChain b

/-- The walk described by the specification, over the examined chain:
stop at the first structured (complex) type containing a
wildcard-marked element, abort at a non-structured type. -/
def walkSpec : List XsdType → WalkResult
  | [] => .notFound
  | x :: rest =>
      match x with
      | .complex _ _ _ elems =>
          match elems.find? (fun v => v.Wildcard) with
          | some e => .found e
          | none => walkSpec rest
      | _ => .abort x

/-- `overrideWildcardType`: walk the base chain for a wildcard template
element, retype the template to the resolved item type (`base`), then
replace every wildcard element of the original type's own element list
with the retyped template, or append it when that list has none. -/
def overrideWildcardType (cfg : Config) (t : CT) (base : XsdType) :
    CT × List String :=
  match wildcardWalk t.toType with
  | .abort x =>
      (t, cfg.logf ("warning: soap-encoded array " ++ x.XMLName.Local ++
        " extends " ++ base.goTypeString ++ " " ++ base.XMLName.Local))
  | .notFound =>
      (t, cfg.logf ("could not override wildcard type for " ++
        t.Name.Local ++ "; not found in type hierarchy"))
  | .found e0 =>
      let logs := cfg.debugf ("overriding wildcard element of " ++
        t.Name.Local ++ " type from " ++ e0.TypeName.Local ++ " to " ++
        base.XMLName.Local)
      let e : XsdElement := { e0 with TypeName := base.XMLName }
      let replaced := t.Elements.any (fun v => v.Wildcard)
      let elems :=
        if replaced then
          t.Elements.map (fun v => if v.Wildcard then e else v)
        else
          t.Elements ++ [e]
      ({ t with Elements := elems }, logs)

/-- `parseSOAPArrayType`: on a complex type, scan for the wsdl
`arrayType` reference, record it as the attribute's fixed value,
normalize the resolved name (trim whitespace, strip one trailing `[]`),
look it up in the schema and override the wildcard; an unresolvable
item type leaves the type as it stands and logs a diagnostic. -/
def parseSOAPArrayType (cfg : Config) (s : Schema) (t : XsdType) :
    XsdType × List String :=
  match t.asComplex with
  | none => (t, [])
  | some c0 =>
      let scanned := arrayTypeScan c0.Attributes
      let c : CT := { c0 with Attributes := scanned.1 }
      let it : XmlName := scanned.2.getD ⟨"", ""⟩
      if it.Local = "" then (c.toType, [])
      else
        let key : XmlName :=
          ⟨it.Space, trimSuffixOnce (trimSpace it.Local) "[]"⟩
        match s.FindType key with
        | some b =>
            let r := overrideWildcardType cfg c b
            (r.1.toType, r.2)
        | none =>
            (c.toType, cfg.logf ("could not lookup item type \"" ++
              key.Local ++ "\" in namespace \"" ++ key.Space ++ "\""))

/-!
The struct-to-sequence flattener `soapArrayToSlice`, over a small model
of the Go AST expressions a spec can hold.  `gen.TagKey` is modelled
from the spec by letting each struct field carry its `xml` struct-tag
value directly (the empty string for an absent tag), and `gen.Func`
method synthesis is modelled from the spec as a fallible function from
the assembled builder data to a declaration.
-/

/-- A Go type expression: an identifier, a struct type whose fields
pair a type expression with the field's `xml` struct-tag value, or a
slice (`ast.ArrayType`). -/
inductive GoExpr where
  | ident (s : String)
  | structType (fields : List (GoExpr × String))
  | arrayType (elt : GoExpr)

/-- `gen.ExprString`: the Go source text of a type expression. -/
def GoExpr.exprString : GoExpr → String
  | .ident s => s
  | .structType _ => "struct"
  | .arrayType e => "[]" ++ e.exprString

/-- The data assembled by the `gen.Func` builder chain before `Decl()`
parses it into a method declaration. -/
structure FuncBuilder where
  name : String
  receiver : String
  args : List String
  returns : String
  body : String
deriving DecidableEq, Repr

/-- The draft declaration (`spec`) for one schema type: its name, its
structural expression, and the accumulated generated methods. -/
structure Spec where
  name : String
  expr : GoExpr
  methods : List FuncBuilder

/-- `strings.Fields` (ASCII whitespace): whitespace-separated tokens,
empties dropped. -/
def goFields (s : String) : List String :=
  (splitBy Char.isWhitespace s).filter (fun x => !(x == ""))

/-- The xml tag computed by `soapArrayToSlice` (lines 457-470): the
wildcard sentinel `{"", ",any"}` unless the field's tag is nonempty, in
which case the first comma-separated part's whitespace-separated tokens
give the local name (last token) and, when two or more tokens are
present, the namespace (first token). -/
def xmlTagOf (tag : String) : XmlName :=
  let base : XmlName := ⟨"", ",any"⟩
  if tag = "" then base
  else
    let parts := splitOnChar ',' tag
    let fs := goFields (parts.headD "")
    let l := if fs.length > 0 then fs.getLast?.getD base.Local else base.Local
    let sp := if fs.length > 1 then fs.headD "" else base.Space
    ⟨sp, l⟩

/-- The UnmarshalXML method body template of `soapArrayToSlice`, with
the item tag namespace and local name and the item type source text
interpolated. -/
def unmarshalBody (space locName itemType : String) : String :=
  "var tok xml.Token\n" ++
  "var itemTag = xml.Name\x7b\"" ++ space ++ "\", \"" ++ locName ++
    "\"\x7d\n\n" ++
  "for tok, err = d.Token(); err == nil; tok, err = d.Token() \x7b\n" ++
  "\tif tok, ok := tok.(xml.StartElement); ok \x7b\n" ++
  "\t\tvar item " ++ itemType ++ "\n" ++
  "\t\tif itemTag.Local != \",any\" && itemTag != tok.Name \x7b\n" ++
  "\t\t\terr = d.Skip()\n\t\t\tcontinue\n\t\t\x7d\n" ++
  "\t\tif err = d.DecodeElement(&item, &tok); err == nil \x7b\n" ++
  "\t\t\t*a = append(*a, item)\n\t\t\x7d\n" ++
  "\t\x7d\n" ++
  "\tif _, ok := tok.(xml.EndElement); ok \x7b\n\t\tbreak\n\t\x7d\n" ++
  "\x7d\n" ++
  "return err"

/-- The MarshalXML method body template of `soapArrayToSlice`: each
item is emitted wrapped in a fixed `item` start/end tag. -/
def marshalBody : String :=
  "tag := xml.StartElement\x7bName: xml.Name\x7b\"\", \"item\"\x7d\x7d\n" ++
  "for _, elt := range *a \x7b\n" ++
  "\tif err := e.EncodeElement(elt, tag); err != nil \x7b\n" ++
  "\t\treturn err\n\t\x7d\n\x7d\n" ++
  "return nil"

/-- The builder data handed to synthesis for the UnmarshalXML method of
a flattened declaration. -/
def unmarshalBuilderOf (specName : String) (xmltag : XmlName)
    (itemType : String) : FuncBuilder :=
  { name := "UnmarshalXML",
    receiver := "a *" ++ specName,
    args := ["d *xml.Decoder", "start xml.StartElement"],
    returns := "err error",
    body := unmarshalBody xmltag.Space xmltag.Local itemType }

/-- The builder data handed to synthesis for the MarshalXML method of a
flattened declaration. -/
def marshalBuilderOf (specName : String) : FuncBuilder :=
  { name := "MarshalXML",
    receiver := "a *" ++ specName,
    args := ["e *xml.Encoder", "start xml.StartElement"],
    returns := "error",
    body := marshalBody }

/-- `soapArrayToSlice`: flatten a struct with exactly one slice-typed
field to the bare slice type and attach synthesized MarshalXML and
UnmarshalXML methods; any other shape, or a synthesis failure for
either method, leaves the spec unchanged.  `synth` is the external
method synthesis (`gen.Func(...).Decl()`), modelled from the spec as a
fallible function. -/
def soapArrayToSlice (cfg : Config)
    (synth : FuncBuilder → Except String FuncBuilder) (s : Spec) :
    Spec × List String :=
  match s.expr with
  | .structType [field] =>
      match field.1 with
      | .arrayType elt =>
          let logs1 := cfg.debugf ("flattening single-element slice " ++
            "struct type " ++ s.name ++ " to []" ++ elt.exprString)
          let tag := field.2
          let xmltag := xmlTagOf tag
          let itemType := elt.exprString
          match synth (unmarshalBuilderOf s.name xmltag itemType) with
          | .error e =>
              (s, logs1 ++ cfg.logf ("error generating UnmarshalXML " ++
                "method of " ++ s.name ++ ": " ++ e))
          | .ok unmarshal =>
              match synth (marshalBuilderOf s.name) with
              | .error e =>
                  (s, logs1 ++ cfg.logf ("error generating MarshalXML " ++
                    "method of " ++ s.name ++ ": " ++ e))
              | .ok marshal =>
                  let s' : Spec := { s with
                    expr := GoExpr.arrayType elt,
                    methods := s.methods ++ [marshal, unmarshal] }
                  (s', logs1)
      | _ => (s, [])
  | _ => (s, [])

/-- The shape test of the flattener, as the claim states it: a struct
with exactly one field whose type is a slice. -/
def flattenable : GoExpr → Bool
  | .structType [(.arrayType _, _)] => true
  | _ => false

/-!
Concrete fixtures used by witnesses and counterexamples.
-/

/-- A Config with a logger installed at verbosity 1. -/
def cfgW : Config := { logger := some 0, loglevel := 1 }

/-- The builtin `anyType`, the end of every base chain. -/
def anyTypeB : XsdType := .builtin ⟨"http://www.w3.org/2001/XMLSchema", "anyType"⟩

/-- A wildcard element placeholder (`<xs:any>`). -/
def wildElem : XsdElement := ⟨⟨"", ""⟩, true, ⟨"http://www.w3.org/2001/XMLSchema", "anyType"⟩⟩

/-- A non-wildcard element. -/
def plainElem : XsdElement := ⟨⟨"", "name"⟩, false, ⟨"http://www.w3.org/2001/XMLSchema", "string"⟩⟩

/-- The soap-encoding `Array` base type: a complex type holding the
wildcard element. -/
def arrayAncestor : XsdType :=
  .complex ⟨soapencNS, "Array"⟩ (some anyTypeB) [] [wildElem]

/-- An `arrayType` attribute carrying the wsdl `arrayType`
sub-attribute `"ns:int[]"`, with `ns` bound to `"NS"`. -/
def aW : XsdAttribute :=
  ⟨⟨"", "arrayType"⟩, [(⟨wsdlNS, "arrayType"⟩, "ns:int[]")], [("ns", "NS")], ""⟩

/-- An `arrayType` attribute with no wsdl sub-attribute. -/
def aPlain : XsdAttribute := ⟨⟨"", "arrayType"⟩, [], [], ""⟩

/-- The resolved item type `{NS}int`. -/
def intType : XsdType := .builtin ⟨"NS", "int"⟩

/-- A complex type whose first `arrayType` attribute has no wsdl
sub-attribute while a later `arrayType` attribute has one. -/
def cNine : CT := ⟨⟨"", "TwoAttrs"⟩, some arrayAncestor, [aPlain, aW], []⟩

/-- A SOAP array declaration: derives from `Array`, owns the
`arrayType` attribute, no own elements. -/
def cSOAP : CT := ⟨⟨"", "IntArray"⟩, some arrayAncestor, [aW], []⟩

/-- A complex type whose own element list holds the wildcard. -/
def cSelf : CT := ⟨⟨"", "SelfArray"⟩, some anyTypeB, [], [plainElem, wildElem]⟩

/-- A complex type with no wildcard anywhere in its chain. -/
def cNoWild : CT := ⟨⟨"", "Plain"⟩, some anyTypeB, [], [plainElem]⟩

/-- A complex type whose wildcard sits on its ancestor `Array`, not in
its own element list. -/
def cDerived : CT := ⟨⟨"", "IntArray2"⟩, some arrayAncestor, [], []⟩

/-- A schema table containing the item type `{NS}int`. -/
def sFound : Schema := [(⟨"NS", "int"⟩, intType)]

/-- The empty schema table. -/
def sEmpty : Schema := []

/-- The first Fixed value reachable in a type's attribute list, used to
tell two types apart. -/
def firstFixed : XsdType → String
  | .complex _ _ (a :: _) _ => a.Fixed
  | _ => ""

/-- A draft declaration whose struct has one field of non-slice type. -/
def specNonSlice : Spec := ⟨"NotArray", .structType [(.ident "int", "")], []⟩

/-- A draft declaration in flattenable shape: a struct with a single
slice-typed field. -/
def specSlice : Spec := ⟨"IntArray", .structType [(.arrayType (.ident "int"), "")], []⟩

/-- A synthesizer that always fails. -/
def synthFail : FuncBuilder → Except String FuncBuilder :=
  fun _ => .error "boom"

/-- A synthesizer that fails only on the MarshalXML builder. -/
def synthFailMarshal : FuncBuilder → Except String FuncBuilder :=
  fun b => if b.name = "MarshalXML" then .error "late" else .ok b

/-- An interpretation of the regex engine in which every pattern
compiles and substitution appends the replacement text. -/
def engW : RegexEngine := ⟨fun _ => true, fun _ repl s => s ++ repl⟩

/-!
Helper lemmas shared by the claim theorems.
-/

theorem applyOpt_inverse (o : Opt) (cfg : Config) :
    (applyOpt (applyOpt o cfg).2 (applyOpt o cfg).1).1 = cfg := by
  cases cfg
  cases o <;> rfl

theorem applyOption_foldl_fst (l : List Opt) :
    ∀ (c : Config) (po : Option Opt),
      (List.foldl
        (fun acc o =>
          let r := applyOpt o acc.1
          (r.1, some r.2))
        (c, po) l).1 = applyOpts c l := by
  induction l with
  | nil => intro c po; rfl
  | cons a l ih =>
      intro c po
      simpa [applyOpts, List.foldl_cons] using ih (applyOpt a c).1 (some (applyOpt a c).2)

theorem applyOption_snoc (cfg : Config) (l : List Opt) (o : Opt) :
    Config.applyOption cfg (l ++ [o]) =
      ((applyOpt o (applyOpts cfg l)).1, some (applyOpt o (applyOpts cfg l)).2) := by
  show (List.foldl
      (fun acc o =>
        let r := applyOpt o acc.1
        (r.1, some r.2))
      (cfg, none) (l ++ [o])) = _
  rw [List.foldl_append, List.foldl_cons, List.foldl_nil,
    applyOption_foldl_fst l cfg none]

theorem wildcardWalk_eq_walkSpec : (x : XsdType) →
    wildcardWalk x = walkSpec (visitedChain x)
  | .builtin _ => rfl
  | .simple _ none => rfl
  | .simple _ (some _) => rfl
  | .complex _ none _ _ => rfl
  | .complex n (some b) attrs elems => by
      have ih := wildcardWalk_eq_walkSpec b
      cases h : elems.find? (fun v => v.Wildcard) with
      | some e => simp [wildcardWalk, visitedChain, walkSpec, h]
      | none => simp [wildcardWalk, visitedChain, walkSpec, h, ih]

/-!
Claim C1.
-/

/-- Claim C1, counterexample: applying the two Options
`PackageName "a"`, `PackageName "b"` in one `Config.Option` call and
then applying the returned Option yields a Config whose package name is
`"a"`, not the empty pre-sequence value: the returned Option does not
restore the state from before the whole sequence. -/
theorem c1_counterexample :
    (applyOpt
      ((Config.applyOption {} [Opt.packageName "a", Opt.packageName "b"]).2.getD
        Opt.handleSOAPArrayType)
      (Config.applyOption {} [Opt.packageName "a", Opt.packageName "b"]).1).1 ≠
      ({} : Config) :=
  fun h => absurd (congrArg Config.pkgname h) (by decide)

/-- Claim C1, amended: the Option returned by `Config.Option` is the
inverse of the last Option of the sequence only: applying it restores
the Config to its state immediately before the last Option was applied
(for a one-Option sequence this is the pre-call state). -/
theorem config_option_inverts_last (cfg : Config) (opts l : List Opt) (o : Opt)
    (h : opts = l ++ [o]) :
    (Config.applyOption cfg opts).2 = some (applyOpt o (applyOpts cfg l)).2 ∧
      (applyOpt (applyOpt o (applyOpts cfg l)).2
        (Config.applyOption cfg opts).1).1 = applyOpts cfg l := by
  subst h
  rw [applyOption_snoc]
  exact ⟨rfl, applyOpt_inverse o (applyOpts cfg l)⟩

/-- Claim C1, witness for the amended theorem: with the sequence
`[PackageName "a", PackageName "b"]` the returned Option restores the
state after `PackageName "a"` alone. -/
theorem c1_witness :
    ([Opt.packageName "a", Opt.packageName "b"] =
        [Opt.packageName "a"] ++ [Opt.packageName "b"]) ∧
      ((Config.applyOption {} [Opt.packageName "a", Opt.packageName "b"]).2 =
          some (applyOpt (Opt.packageName "b")
            (applyOpts {} [Opt.packageName "a"])).2 ∧
        (applyOpt (applyOpt (Opt.packageName "b")
            (applyOpts {} [Opt.packageName "a"])).2
          (Config.applyOption {} [Opt.packageName "a", Opt.packageName "b"]).1).1 =
          applyOpts {} [Opt.packageName "a"]) :=
  ⟨rfl, config_option_inverts_last {} _ [Opt.packageName "a"] (Opt.packageName "b") rfl⟩

/-!
Claim C6.
-/

/-- Claim C6: installing `ReplaceAllNames` rule A and then rule B wraps
the previous chain (never discards it) and executes in installation
order: the chain value records A inside B with the prior chain inside
A, and evaluation applies the prior chain (or the bare local name),
then A's substitution, then B's. -/
theorem replaceAllNames_chains_in_order (eng : RegexEngine) (cfg : Config)
    (pA rA pB rB : String) (n : XmlName)
    (hA : eng.ok pA = true) (hB : eng.ok pB = true) :
    ((applyOpt (.replaceAllNames pB rB)
        (applyOpt (.replaceAllNames pA rA) cfg).1).1.allNameTransform =
      some (.replaceAll (some (.replaceAll cfg.allNameTransform pA rA)) pB rB)) ∧
      (evalNTOpt eng
          ((applyOpt (.replaceAllNames pB rB)
            (applyOpt (.replaceAllNames pA rA) cfg).1).1.allNameTransform) n =
        eng.replace pB rB (eng.replace pA rA (evalNTOpt eng cfg.allNameTransform n))) := by
  refine ⟨rfl, ?_⟩
  cases hprev : cfg.allNameTransform with
  | none => simp [applyOpt, evalNTOpt, evalNT, hA, hB, hprev]
  | some p => simp [applyOpt, evalNTOpt, evalNT, hA, hB, hprev]

/-- Claim C6, witness: with an engine in which substitution appends the
replacement text, installing A = (append "-a") then B = (append "-b")
on a fresh Config maps the local name `x` to `x-a-b`: A first, then
B. -/
theorem c6_witness :
    (engW.ok "p1" = true ∧ engW.ok "p2" = true) ∧
      (((applyOpt (.replaceAllNames "p2" "-b")
          (applyOpt (.replaceAllNames "p1" "-a") {}).1).1.allNameTransform =
        some (.replaceAll (some (.replaceAll none "p1" "-a")) "p2" "-b")) ∧
        (evalNTOpt engW
            ((applyOpt (.replaceAllNames "p2" "-b")
              (applyOpt (.replaceAllNames "p1" "-a") {}).1).1.allNameTransform)
            ⟨"", "x"⟩ =
          engW.replace "p2" "-b" (engW.replace "p1" "-a"
            (evalNTOpt engW ({} : Config).allNameTransform ⟨"", "x"⟩)))) :=
  ⟨⟨rfl, rfl⟩,
    replaceAllNames_chains_in_order engW {} "p1" "-a" "p2" "-b" ⟨"", "x"⟩ rfl rfl⟩

/-!
Claim C2.
-/

/-- Claim C2: when the walk over the examined base chain (the type
itself first, ascending one base link at a time) finds its first
wildcard template `e` on a structured type, `overrideWildcardType`
retypes the template to the resolved item type and, in the original
type's own element list, replaces every wildcard element with the
retyped template at its index — or appends the retyped template when
that list holds no wildcard. -/
theorem overrideWildcardType_found (cfg : Config) (t : CT) (base : XsdType)
    (e : XsdElement) (h : walkSpec (visitedChain t.toType) = .found e) :
    (overrideWildcardType cfg t base).1 =
      { t with Elements :=
          if t.Elements.any (fun v => v.Wildcard) then
            t.Elements.map (fun v =>
              if v.Wildcard then { e with TypeName := base.XMLName } else v)
          else t.Elements ++ [{ e with TypeName := base.XMLName }] } := by
  have hw : wildcardWalk t.toType = .found e := by
    rw [wildcardWalk_eq_walkSpec, h]
  unfold overrideWildcardType
  rw [hw]

/-- Claim C2, witness: a type holding its own wildcard element gets it
replaced in place, the other elements untouched. -/
theorem c2_witness :
    (walkSpec (visitedChain cSelf.toType) = .found wildElem) ∧
      (overrideWildcardType cfgW cSelf intType).1 =
        { cSelf with Elements :=
            if cSelf.Elements.any (fun v => v.Wildcard) then
              cSelf.Elements.map (fun v =>
                if v.Wildcard then { wildElem with TypeName := intType.XMLName }
                else v)
            else cSelf.Elements ++ [{ wildElem with TypeName := intType.XMLName }] } :=
  ⟨rfl, overrideWildcardType_found cfgW cSelf intType wildElem rfl⟩

/-!
Claim C4.
-/

/-- Claim C4: when the walk aborts on a non-structured visited type or
exhausts the chain without finding a wildcard element,
`overrideWildcardType` returns the input type unchanged and (with a
logger installed at positive verbosity) logs exactly one
diagnostic. -/
theorem overrideWildcardType_failure_unchanged (cfg : Config) (t : CT)
    (base : XsdType)
    (h : walkSpec (visitedChain t.toType) = .notFound ∨
      ∃ x, walkSpec (visitedChain t.toType) = .abort x)
    (hl : cfg.logger.isSome = true) (hv : 0 < cfg.loglevel) :
    (overrideWildcardType cfg t base).1 = t ∧
      (overrideWildcardType cfg t base).2.length = 1 := by
  have hw := wildcardWalk_eq_walkSpec t.toType
  unfold overrideWildcardType
  rcases h with h | ⟨x, h⟩ <;> rw [hw, h] <;>
    exact ⟨rfl, by simp [Config.logf, hl, hv]⟩

/-- Claim C4, witness: a type whose chain holds no wildcard element is
returned unchanged with one diagnostic. -/
theorem c4_witness :
    ((walkSpec (visitedChain cNoWild.toType) = .notFound ∨
        ∃ x, walkSpec (visitedChain cNoWild.toType) = .abort x) ∧
      cfgW.logger.isSome = true ∧ 0 < cfgW.loglevel) ∧
      ((overrideWildcardType cfgW cNoWild intType).1 = cNoWild ∧
        (overrideWildcardType cfgW cNoWild intType).2.length = 1) :=
  ⟨⟨Or.inl rfl, rfl, by decide⟩,
    overrideWildcardType_failure_unchanged cfgW cNoWild intType (Or.inl rfl) rfl
      (by decide)⟩

/-!
Claim C10.
-/

/-- Claim C10: when the wildcard template is found on a proper ancestor
(the original type's own element list holds no wildcard), the call
leaves the name, base chain — and with it every ancestor's element
list — and attribute list untouched, and only appends the retyped
copy of the template to the original type's own element list; the
template inside the ancestor keeps its original referenced type. -/
theorem overrideWildcardType_ancestor_frame (cfg : Config) (t : CT)
    (base : XsdType) (e : XsdElement)
    (h : walkSpec (visitedChain t.toType) = .found e)
    (hnw : t.Elements.any (fun v => v.Wildcard) = false) :
    (overrideWildcardType cfg t base).1.Name = t.Name ∧
      (overrideWildcardType cfg t base).1.Base = t.Base ∧
      (overrideWildcardType cfg t base).1.Attributes = t.Attributes ∧
      (overrideWildcardType cfg t base).1.Elements =
        t.Elements ++ [{ e with TypeName := base.XMLName }] := by
  have hw : wildcardWalk t.toType = .found e := by
    rw [wildcardWalk_eq_walkSpec, h]
  unfold overrideWildcardType
  rw [hw]
  simp [hnw]

/-- Claim C10, witness: a derived type whose wildcard sits on its
`Array` ancestor keeps its base (hence the ancestor's element list)
unchanged and gets the retyped copy appended to its own list. -/
theorem c10_witness :
    ((walkSpec (visitedChain cDerived.toType) = .found wildElem) ∧
      cDerived.Elements.any (fun v => v.Wildcard) = false) ∧
      ((overrideWildcardType cfgW cDerived intType).1.Name = cDerived.Name ∧
        (overrideWildcardType cfgW cDerived intType).1.Base = cDerived.Base ∧
        (overrideWildcardType cfgW cDerived intType).1.Attributes =
          cDerived.Attributes ∧
        (overrideWildcardType cfgW cDerived intType).1.Elements =
          cDerived.Elements ++ [{ wildElem with TypeName := intType.XMLName }]) :=
  ⟨⟨rfl, rfl⟩,
    overrideWildcardType_ancestor_frame cfgW cDerived intType wildElem rfl rfl⟩

/-!
The attribute scan of `parseSOAPArrayType`, characterized on lists
whose first `arrayType` attribute is exhibited.
-/

theorem arrayTypeScan_found (pre post : List XsdAttribute) (a : XsdAttribute)
    (v : String)
    (hpre : ∀ b ∈ pre, b.Name.Local ≠ "arrayType")
    (ha : a.Name.Local = "arrayType")
    (hw : findWsdlArrayType a.Attr = some v) :
    arrayTypeScan (pre ++ a :: post) =
      (pre ++ { a with Fixed := v } :: post, some (a.Resolve v)) := by
  induction pre with
  | nil => simp [arrayTypeScan, ha, hw]
  | cons b pre ih =>
      have hb : b.Name.Local ≠ "arrayType" := hpre b (by simp)
      have ih' := ih (fun x hx => hpre x (by simp [hx]))
      simp [arrayTypeScan, hb, ih']

theorem arrayTypeScan_nomatch (pre post : List XsdAttribute) (a : XsdAttribute)
    (hpre : ∀ b ∈ pre, b.Name.Local ≠ "arrayType")
    (ha : a.Name.Local = "arrayType")
    (hw : findWsdlArrayType a.Attr = none) :
    arrayTypeScan (pre ++ a :: post) = (pre ++ a :: post, none) := by
  induction pre with
  | nil => simp [arrayTypeScan, ha, hw]
  | cons b pre ih =>
      have hb : b.Name.Local ≠ "arrayType" := hpre b (by simp)
      have ih' := ih (fun x hx => hpre x (by simp [hx]))
      simp [arrayTypeScan, hb, ih']

/-!
Claim C3.
-/

/-- Claim C3, counterexample: with the wsdl reference `"ns:int[]"`
unresolvable in the empty schema, `parseSOAPArrayType` does not return
the original type unchanged — the scan has recorded the literal
reference as the attribute's fixed value. -/
theorem c3_counterexample :
    (parseSOAPArrayType cfgW sEmpty cSOAP.toType).1 ≠ cSOAP.toType :=
  fun h => absurd (congrArg firstFixed h) (by decide)

/-- Claim C3 (amended): when the normalized item-type reference is
absent from the schema, `parseSOAPArrayType` returns the original type
with the sole change that the first `arrayType` attribute's fixed value
is set to the literal reference, and (with a logger installed at
positive verbosity) logs exactly one diagnostic naming the namespace
and the local name. -/
theorem parseSOAPArrayType_unresolved (cfg : Config) (s : Schema) (c : CT)
    (pre post : List XsdAttribute) (a : XsdAttribute) (v : String)
    (hattrs : c.Attributes = pre ++ a :: post)
    (hpre : ∀ b ∈ pre, b.Name.Local ≠ "arrayType")
    (ha : a.Name.Local = "arrayType")
    (hw : findWsdlArrayType a.Attr = some v)
    (hloc : (a.Resolve v).Local ≠ "")
    (hfind : s.FindType ⟨(a.Resolve v).Space,
      trimSuffixOnce (trimSpace (a.Resolve v).Local) "[]"⟩ = none)
    (hl : cfg.logger.isSome = true) (hv : 0 < cfg.loglevel) :
    parseSOAPArrayType cfg s c.toType =
      (CT.toType { c with Attributes := pre ++ { a with Fixed := v } :: post },
       ["could not lookup item type \"" ++
          trimSuffixOnce (trimSpace (a.Resolve v).Local) "[]" ++
          "\" in namespace \"" ++ (a.Resolve v).Space ++ "\""]) := by
  have hscan := arrayTypeScan_found pre post a v hpre ha hw
  rw [← hattrs] at hscan
  simp [parseSOAPArrayType, CT.toType, XsdType.asComplex, hscan, hloc, hfind,
    Config.logf, hl, hv]

/-- Claim C3, witness for the amended theorem: the `IntArray` fixture
against the empty schema comes back with the fixed value recorded and
one diagnostic naming namespace `NS` and local name `int`. -/
theorem c3_witness :
    (cSOAP.Attributes = [] ++ aW :: [] ∧
      aW.Name.Local = "arrayType" ∧
      findWsdlArrayType aW.Attr = some "ns:int[]" ∧
      (aW.Resolve "ns:int[]").Local ≠ "" ∧
      sEmpty.FindType ⟨(aW.Resolve "ns:int[]").Space,
        trimSuffixOnce (trimSpace (aW.Resolve "ns:int[]").Local) "[]"⟩ = none ∧
      cfgW.logger.isSome = true ∧ 0 < cfgW.loglevel) ∧
      parseSOAPArrayType cfgW sEmpty cSOAP.toType =
        (CT.toType { cSOAP with
          Attributes := [] ++ { aW with Fixed := "ns:int[]" } :: [] },
         ["could not lookup item type \"" ++
            trimSuffixOnce (trimSpace (aW.Resolve "ns:int[]").Local) "[]" ++
            "\" in namespace \"" ++ (aW.Resolve "ns:int[]").Space ++ "\""]) :=
  ⟨⟨rfl, rfl, rfl, by decide, rfl, rfl, by decide⟩,
    parseSOAPArrayType_unresolved cfgW sEmpty cSOAP [] [] aW "ns:int[]" rfl
      (fun b hb => absurd hb (List.not_mem_nil b)) rfl rfl (by decide) rfl rfl
      (by decide)⟩

/-!
Claim C5.
-/

/-- Claim C5: once the scan has resolved a nonempty item-type
reference, the schema is consulted exactly at the normalized name —
namespace kept, local name whitespace-trimmed and one trailing `[]`
stripped — and the rest of the behavior branches only on that
lookup. -/
theorem parseSOAPArrayType_normalizes (cfg : Config) (s : Schema) (c : CT)
    (attrs2 : List XsdAttribute) (r : XmlName)
    (hscan : arrayTypeScan c.Attributes = (attrs2, some r))
    (hloc : r.Local ≠ "") :
    parseSOAPArrayType cfg s c.toType =
      (match s.FindType ⟨r.Space, trimSuffixOnce (trimSpace r.Local) "[]"⟩ with
       | some b =>
           ((overrideWildcardType cfg { c with Attributes := attrs2 } b).1.toType,
            (overrideWildcardType cfg { c with Attributes := attrs2 } b).2)
       | none =>
           (CT.toType { c with Attributes := attrs2 },
            cfg.logf ("could not lookup item type \"" ++
              trimSuffixOnce (trimSpace r.Local) "[]" ++
              "\" in namespace \"" ++ r.Space ++ "\""))) := by
  simp only [parseSOAPArrayType, CT.toType, XsdType.asComplex, hscan, hloc]
  cases hf : s.FindType ⟨r.Space, trimSuffixOnce (trimSpace r.Local) "[]"⟩ with
  | none => simp [hf, hloc]
  | some b => simp [hf, hloc]

/-- Claim C5, witness: the reference `"ns:int[]"` resolves to
`{NS}int[]` and is looked up as `{NS}int`; in a schema table holding
`{NS}int` the lookup succeeds and the wildcard override runs with that
item type. -/
theorem c5_witness :
    (arrayTypeScan cSOAP.Attributes =
        ([{ aW with Fixed := "ns:int[]" }], some ⟨"NS", "int[]"⟩) ∧
      (⟨"NS", "int[]"⟩ : XmlName).Local ≠ "") ∧
      parseSOAPArrayType cfgW sFound cSOAP.toType =
        (XsdType.complex ⟨"", "IntArray"⟩ (some arrayAncestor)
          [{ aW with Fixed := "ns:int[]" }]
          [{ wildElem with TypeName := ⟨"NS", "int"⟩ }], []) :=
  ⟨⟨rfl, by decide⟩,
    parseSOAPArrayType_normalizes cfgW sFound cSOAP
      [{ aW with Fixed := "ns:int[]" }] ⟨"NS", "int[]"⟩ rfl (by decide)⟩

/-!
Claim C9.
-/

/-- Claim C9: only the first attribute whose local name is `arrayType`
is inspected; when it carries no wsdl `arrayType` sub-attribute the
type comes back unchanged with no diagnostics, whatever later
`arrayType` attributes hold. -/
theorem parseSOAPArrayType_first_attr_only (cfg : Config) (s : Schema) (c : CT)
    (pre post : List XsdAttribute) (a : XsdAttribute)
    (hattrs : c.Attributes = pre ++ a :: post)
    (hpre : ∀ b ∈ pre, b.Name.Local ≠ "arrayType")
    (ha : a.Name.Local = "arrayType")
    (hw : findWsdlArrayType a.Attr = none) :
    parseSOAPArrayType cfg s c.toType = (c.toType, []) := by
  have hscan := arrayTypeScan_nomatch pre post a hpre ha hw
  rw [← hattrs] at hscan
  simp [parseSOAPArrayType, CT.toType, XsdType.asComplex, hscan]

/-- Claim C9, witness: a type whose first `arrayType` attribute has no
wsdl sub-attribute is returned unchanged even though a later
`arrayType` attribute carries a resolvable reference. -/
theorem c9_witness :
    (cNine.Attributes = [] ++ aPlain :: [aW] ∧
      aPlain.Name.Local = "arrayType" ∧
      findWsdlArrayType aPlain.Attr = none) ∧
      parseSOAPArrayType cfgW sFound cNine.toType = (cNine.toType, []) :=
  ⟨⟨rfl, rfl, rfl⟩,
    parseSOAPArrayType_first_attr_only cfgW sFound cNine [] [aW] aPlain rfl
      (fun b hb => absurd hb (List.not_mem_nil b)) rfl rfl⟩

/-!
Claim C7.
-/

/-- Claim C7: `soapArrayToSlice` leaves every declaration unchanged
whose structural expression is not a struct with exactly one field of
slice type — no struct at all, zero or two-or-more fields, or a single
field of non-sequence type. -/
theorem soapArrayToSlice_shape_guard (cfg : Config)
    (synth : FuncBuilder → Except String FuncBuilder) (s : Spec)
    (h : flattenable s.expr = false) :
    (soapArrayToSlice cfg synth s).1 = s := by
  unfold soapArrayToSlice
  split
  · rename_i field heq1
    obtain ⟨f1, f2⟩ := field
    split
    · rename_i elt heq2
      have h2 : f1 = GoExpr.arrayType elt := heq2
      rw [heq1, h2] at h
      simp [flattenable] at h
    · rfl
  · rfl

/-- Claim C7, witness: a struct with a single non-slice field is not
flattened. -/
theorem c7_witness :
    (flattenable specNonSlice.expr = false) ∧
      (soapArrayToSlice cfgW synthFail specNonSlice).1 = specNonSlice :=
  ⟨rfl, soapArrayToSlice_shape_guard cfgW synthFail specNonSlice rfl⟩

/-!
Claim C8.
-/

/-- Claim C8: on a declaration of flattenable shape, if synthesis of
the UnmarshalXML method fails, or succeeds while synthesis of the
MarshalXML method fails, `soapArrayToSlice` returns the declaration
unchanged — the expression is not replaced and no method is attached —
and (with a logger installed at positive verbosity) the error is
logged. -/
theorem soapArrayToSlice_synth_failure (cfg : Config)
    (synth : FuncBuilder → Except String FuncBuilder) (s : Spec)
    (elt : GoExpr) (tag : String)
    (hs : s.expr = .structType [(.arrayType elt, tag)])
    (hl : cfg.logger.isSome = true) (hv : 0 < cfg.loglevel) :
    (∀ m, synth (unmarshalBuilderOf s.name (xmlTagOf tag) elt.exprString) =
        .error m →
      (soapArrayToSlice cfg synth s).1 = s ∧
        ("error generating UnmarshalXML method of " ++ s.name ++ ": " ++ m) ∈
          (soapArrayToSlice cfg synth s).2) ∧
      (∀ u m, synth (unmarshalBuilderOf s.name (xmlTagOf tag) elt.exprString) =
          .ok u →
        synth (marshalBuilderOf s.name) = .error m →
        (soapArrayToSlice cfg synth s).1 = s ∧
          ("error generating MarshalXML method of " ++ s.name ++ ": " ++ m) ∈
            (soapArrayToSlice cfg synth s).2) := by
  constructor
  · intro m hm
    simp [soapArrayToSlice, hs, hm, Config.logf, hl, hv]
  · intro u m hu hm
    simp [soapArrayToSlice, hs, hu, hm, Config.logf, hl, hv]

/-- Claim C8, witness: with a synthesizer failing on UnmarshalXML the
flattenable fixture is returned unchanged and the error is logged; the
theorem is applied at the failing synthesizer. -/
theorem c8_witness :
    (specSlice.expr =
        .structType [(.arrayType (.ident "int"), "")] ∧
      synthFail (unmarshalBuilderOf specSlice.name (xmlTagOf "")
        (GoExpr.ident "int").exprString) = .error "boom" ∧
      cfgW.logger.isSome = true ∧ 0 < cfgW.loglevel) ∧
      ((soapArrayToSlice cfgW synthFail specSlice).1 = specSlice ∧
        ("error generating UnmarshalXML method of " ++ specSlice.name ++ ": " ++
            "boom") ∈ (soapArrayToSlice cfgW synthFail specSlice).2) :=
  ⟨⟨rfl, rfl, rfl, by decide⟩,
    (soapArrayToSlice_synth_failure cfgW synthFail specSlice (.ident "int") ""
        rfl rfl (by decide)).1 "boom" rfl⟩

end Xsdgen
